import Mathlib

/-!
Verification of the mock-data generator of `ftag` (`ftag/mock.py`) and of the
schema merger it relies on (`join_structured_arrays` of `ftag.hdf5`).

Modelling conventions for the shallow embedding:
* machine floats (`f4`, `f8`) are modelled as exact rationals `ℚ`;
* the numpy generator `np.random.default_rng(seed)` is modelled as an abstract
  deterministic stream `G : ℕ → ℕ → ℚ` giving, for a seed and a position in the
  stream of that seed, the value drawn at that position.  Each primitive
  (`random`, `choice`, `integers`, `normal`) consumes successive positions;
  `normal(loc, scale, ...)` at position `p`, coordinate `j`, returns
  `loc j + scale * G seed p`;
* `np.exp` is modelled as an abstract parameter `e : ℚ → ℚ` (claims needing its
  positivity take it as a hypothesis);
* structured arrays keep their schema as an ordered list of named, typed fields
  and their data as one keyed record per cell, flattened in row-major order.
-/

namespace FtagMock

/-- Scalar element kinds appearing in the mock schemas: `f4`, `i4`, `bool`. -/
inductive DType
  | f4
  | i4
  | b
deriving DecidableEq

/-- A single cell value of a structured array. -/
inductive Val
  | q (x : ℚ)
  | z (n : ℤ)
  | bo (v : Bool)
deriving DecidableEq

/-- Numeric reading of a cell value. -/
def Val.toQ : Val → ℚ
  | .q x => x
  | .z n => (n : ℚ)
  | .bo v => if v then 1 else 0

/-- A structured (record) array: ordered schema, numpy shape, and data as one
keyed record per cell, flattened in row-major order. -/
structure SArr where
  fields : List (String × DType)
  shape : List ℕ
  data : List (List (String × Val))
deriving DecidableEq

/-- Error kinds of the core (spec section 7): the first two belong to the schema
merger, `unknownLabel` to the score synthesizer (a `KeyError` in the source),
`indexErr` to the scale-list lookup `scales[i]` (an `IndexError` in the source). -/
inductive Err
  | shapeMismatch (s1 s2 : List ℕ)
  | schemaConflict (dup : String)
  | unknownLabel (l : ℤ)
  | indexErr (i : ℕ)
  | emptyInput
deriving DecidableEq

/-- Abstract model of the numpy PCG64 stream: seed and position determine the
draw.  All distributional facts used by the claims are taken as hypotheses. -/
abbrev RngFun := ℕ → ℕ → ℚ

/-- The state a stateful generator semantics would thread between calls: the
seed of the active generator together with the position in its stream. -/
def RngState : Type := ℕ × ℕ

/-- C-style truncation toward zero, the semantics of numpy's float→int cast. -/
def truncQ (x : ℚ) : ℤ := Int.tdiv x.num (x.den : ℤ)

/-- Casting a (float) draw into a field of the given element kind, as the
`unstructured_to_structured` conversion does. -/
def castVal : DType → ℚ → Val
  | .f4, x => .q x
  | .i4, x => .z (truncQ x)
  | .b, x => .bo (decide (x ≠ 0))

/-- One schema field applied to one raw draw. -/
def mkEntry (fd : String × DType) (x : ℚ) : String × Val := (fd.1, castVal fd.2 x)

/-- `numpy.lib.recfunctions.unstructured_to_structured`: pair a raw row-major
matrix of draws with an ordered schema. -/
def u2s (flds : List (String × DType)) (shape : List ℕ) (raw : List (List ℚ)) : SArr :=
  ⟨flds, shape, raw.map (fun r => List.zipWith mkEntry flds r)⟩

/-- First value stored under `name` in a keyed record. -/
def rlookup (name : String) : List (String × Val) → Option Val
  | [] => none
  | p :: ps => if p.1 = name then some p.2 else rlookup name ps

/-- Column read `arr[name]`. -/
def SArr.col (a : SArr) (name : String) : List Val :=
  a.data.map (fun row => (rlookup name row).getD (Val.z 0))

/-- Overwrite the value stored under `name` in one keyed record. -/
def setEntry (name : String) (v : Val) (row : List (String × Val)) : List (String × Val) :=
  row.map (fun p => if p.1 = name then (p.1, v) else p)

/-- Column assignment `arr[name] = vals`. -/
def setCol (a : SArr) (name : String) (vals : List Val) : SArr :=
  ⟨a.fields, a.shape, List.zipWith (fun row v => setEntry name v row) a.data vals⟩

/-- Apply a rational function under a `Val.q`; other kinds are untouched. -/
def applyQ (f : ℚ → ℚ) : Val → Val
  | .q x => .q (f x)
  | v => v

/-- Pointwise update of the value stored under `name` in one keyed record. -/
def mapEntryQ (name : String) (f : ℚ → ℚ) (row : List (String × Val)) : List (String × Val) :=
  row.map (fun p => if p.1 = name then (p.1, applyQ f p.2) else p)

/-- In-place column arithmetic such as `arr[name] *= c`. -/
def mapColQ (a : SArr) (name : String) (f : ℚ → ℚ) : SArr :=
  ⟨a.fields, a.shape, a.data.map (mapEntryQ name f)⟩

/-- One draw of `rng.choice(opts)` (also covering `rng.integers`): the uniform
draw `u` selects index `⌊u * len opts⌋`, clamped into range as the library
always returns one of the options. -/
def chooseU {α : Type} (opts : List α) (dflt : α) (u : ℚ) : α :=
  opts.getD (min (Int.toNat (truncQ (u * (opts.length : ℚ)))) (opts.length - 1)) dflt

/-- `rng.choice(opts, size=cnt)`: `cnt` successive selections from the stream. -/
def choiceList {α : Type} (G : RngFun) (seed pos : ℕ) (opts : List α) (dflt : α) (cnt : ℕ) :
    List α :=
  (List.range cnt).map (fun i => chooseU opts dflt (G seed (pos + i)))

/-- Maximum of a row, as `np.max` over the class axis. -/
def rowMax (xs : List ℚ) : ℚ := xs.foldl max (xs.headD 0)

/-- `softmax` of `ftag/mock.py` applied to one row (the source is only ever
called with `axis=1`): subtract the row maximum, apply `e` (the model of
`np.exp`), divide by the row sum. -/
def softmaxRow (e : ℚ → ℚ) (xs : List ℚ) : List ℚ :=
  let m := rowMax xs
  let ex := xs.map (fun x => e (x - m))
  ex.map (fun y => y / ex.sum)

/-- `label_dict` of the standard taxonomy: `{"u": 0, "c": 4, "b": 5, "tau": 15}`. -/
def stdLabelDict : List (String × ℤ) := [("u", 0), ("c", 4), ("b", 5), ("tau", 15)]

/-- `label_dict` of the alternate taxonomy:
`{"hbb": 11, "hcc": 12, "top": 1, "qcd": 10}`. -/
def xbbLabelDict : List (String × ℤ) := [("hbb", 11), ("hcc", 12), ("top", 1), ("qcd", 10)]

/-- The `means` table of `get_mock_scores`. -/
def meansList : List (List ℚ) := [[2, 0, 0, 0], [0, 1, 0, 0], [0, 0, 7/2, 0], [0, 0, 0, 1]]

/-- `dict(zip(label_dict.values(), means))`: label code → mean vector. -/
def labelMapping (isXbb : Bool) : List (ℤ × List ℚ) :=
  List.zipWith (fun p m => (p.2, m)) (if isXbb then xbbLabelDict else stdLabelDict) meansList

/-- The fixed dispersion list `scales = [1, 2.5, 5, 1]`. -/
def scalesList : List ℚ := [1, 5/2, 5, 1]

/-- Number of probability classes, `nclass = len(label_dict)`. -/
def nclass : ℕ := 4

/-- Output field names `f"{name}_p{x}"` of the active taxonomy, all `f4`. -/
def scoreFields (isXbb : Bool) : List (String × DType) :=
  ((if isXbb then xbbLabelDict else stdLabelDict).map
    (fun p => ((if isXbb then "MockXbbTagger" else "MockTagger") ++ "_p" ++ p.1, DType.f4)))

/-- Mean-vector lookup `label_mapping[label]`. -/
def mlookup (l : ℤ) : List (ℤ × List ℚ) → Option (List ℚ)
  | [] => none
  | p :: ps => if p.1 = l then some p.2 else mlookup l ps

/-- Whether a label code has an entry in the active class-parameter mapping. -/
def knownLabel (isXbb : Bool) (l : ℤ) : Bool := (mlookup l (labelMapping isXbb)).isSome

/-- Sorted insertion keeping the list strictly increasing (duplicates dropped). -/
def insertSorted (x : ℤ) : List ℤ → List ℤ
  | [] => [x]
  | y :: ys => if x < y then x :: y :: ys else if x = y then y :: ys else y :: insertSorted x ys

/-- `np.unique(labels)`: the distinct label values in ascending order. -/
def distinctSorted (labels : List ℤ) : List ℤ := labels.foldr insertSorted []

/-- One row of `rng.normal(loc, scale, size=(count, nclass))`. -/
def drawRow (G : RngFun) (seed pos : ℕ) (loc : List ℚ) (scale : ℚ) : List ℚ :=
  (List.range nclass).map (fun j => loc.getD j 0 + scale * G seed (pos + j))

/-- The full `count × nclass` block drawn for one label value. -/
def drawBlock (G : RngFun) (seed pos : ℕ) (loc : List ℚ) (scale : ℚ) (count : ℕ) :
    List (List ℚ) :=
  (List.range count).map (fun r => drawRow G seed (pos + nclass * r) loc scale)

/-- `scores[labels == l] = rows`: replace, in matching-position order, the rows
of `m` whose label equals `l` by the successive rows of `rows`. -/
def scatter (l : ℤ) : List ℤ → List (List ℚ) → List (List ℚ) → List (List ℚ)
  | _, _, [] => []
  | [], _, m => m
  | lb :: lbs, rows, r :: rs =>
    if lb = l then rows.headD r :: scatter l lbs rows.tail rs
    else r :: scatter l lbs rows rs

/-- The loop `for i, (label, count) in enumerate(zip(*np.unique(labels, return_counts=True)))`
of `get_mock_scores`.  Arguments: remaining distinct labels, loop index `i`,
stream position, score matrix, and the trace of `(label, scale)` pairs passed to
`rng.normal` so far.  As in the source, `label_mapping[label]` is evaluated
before `scales[i]`. -/
def scoreLoop (G : RngFun) (mapping : List (ℤ × List ℚ)) (labels : List ℤ) :
    List ℤ → ℕ → ℕ → List (List ℚ) → List (ℤ × ℚ) →
    Except Err (List (List ℚ) × List (ℤ × ℚ))
  | [], _, _, m, tr => .ok (m, tr)
  | l :: rest, i, pos, m, tr =>
    match mlookup l mapping with
    | none => .error (.unknownLabel l)
    | some loc =>
      match scalesList.get? i with
      | none => .error (.indexErr i)
      | some sc =>
        let count := labels.count l
        scoreLoop G mapping labels rest (i + 1) (pos + nclass * count)
          (scatter l labels (drawBlock G 42 pos loc sc count) m) (tr ++ [(l, sc)])

/-- `get_mock_scores`, instrumented with the trace of `(label, scale)` pairs it
passes to `rng.normal`.  The generator is re-seeded with 42 on entry. -/
def getMockScoresT (e : ℚ → ℚ) (G : RngFun) (isXbb : Bool) (labels : List ℤ) :
    Except Err (SArr × List (ℤ × ℚ)) :=
  let init := List.replicate labels.length (List.replicate nclass (0 : ℚ))
  match scoreLoop G (labelMapping isXbb) labels (distinctSorted labels) 0 0 init [] with
  | .error err => .error err
  | .ok (m, tr) => .ok (u2s (scoreFields isXbb) [labels.length] (m.map (softmaxRow e)), tr)

/-- `get_mock_scores(labels, is_xbb)`. -/
def getMockScores (e : ℚ → ℚ) (G : RngFun) (isXbb : Bool) (labels : List ℤ) :
    Except Err SArr :=
  (getMockScoresT e G isXbb labels).map Prod.fst

/-- `JET_VARS` of `ftag/mock.py`. -/
def JET_VARS : List (String × DType) :=
  [("pt", .f4), ("eta", .f4), ("abs_eta", .f4), ("mass", .f4), ("pt_btagJes", .f4),
   ("eta_btagJes", .f4), ("n_tracks", .i4), ("HadronConeExclTruthLabelID", .i4),
   ("HadronConeExclTruthLabelPt", .f4), ("R10TruthLabel_R22v1", .i4),
   ("n_truth_promptLepton", .i4), ("flavour_label", .i4)]

/-- `TRACK_VARS` of `ftag/mock.py`. -/
def TRACK_VARS : List (String × DType) :=
  [("d0", .f4), ("z0SinTheta", .f4), ("dphi", .f4), ("deta", .f4), ("qOverP", .f4),
   ("IP3D_signed_d0_significance", .f4), ("IP3D_signed_z0_significance", .f4),
   ("phiUncertainty", .f4), ("thetaUncertainty", .f4), ("qOverPUncertainty", .f4),
   ("numberOfPixelHits", .i4), ("numberOfSCTHits", .i4),
   ("numberOfInnermostPixelLayerHits", .i4), ("numberOfNextToInnermostPixelLayerHits", .i4),
   ("numberOfInnermostPixelLayerSharedHits", .i4), ("numberOfInnermostPixelLayerSplitHits", .i4),
   ("numberOfPixelSharedHits", .i4), ("numberOfPixelSplitHits", .i4),
   ("numberOfSCTSharedHits", .i4), ("numberOfPixelHoles", .i4), ("numberOfSCTHoles", .i4)]

/-- First input whose shape differs from the reference shape `s`. -/
def findMismatch (s : List ℕ) : List SArr → Option SArr
  | [] => none
  | b :: bs => if b.shape = s then findMismatch s bs else some b

/-- First field name occurring twice in the concatenated schemas. -/
def firstDup : List String → Option String
  | [] => none
  | x :: xs => if x ∈ xs then some x else firstDup xs

/-- Modelled from the spec: `join_structured_arrays` is imported from
`ftag.hdf5`, whose module is not part of the sources at hand; per the spec
(section 4.1, Schema Merger) it takes an ordered sequence of record arrays that
must all share their shape (`ShapeMismatchError` naming the two conflicting
shapes otherwise), whose field names must not collide (`SchemaConflictError`
naming the duplicate otherwise), and concatenates schemas and per-record values
in input order, with no other effect. -/
def joinStructuredArrays : List SArr → Except Err SArr
  | [] => .error .emptyInput
  | a :: rest =>
    match findMismatch a.shape rest with
    | some b => .error (.shapeMismatch a.shape b.shape)
    | none =>
      match firstDup (((a :: rest).map (fun x => x.fields.map Prod.fst)).flatten) with
      | some f => .error (.schemaConflict f)
      | none =>
        .ok ⟨((a :: rest).map (fun x => x.fields)).flatten, a.shape,
          (List.range a.data.length).map
            (fun i => ((a :: rest).map (fun x => x.data.getD i [])).flatten)⟩

/-- The raw `rng.random((num_jets, len(JET_VARS)))` block: jet `i`, column `j`
sits at position `12 * i + j` of the stream of seed 42. -/
def rawJets (G : RngFun) (n : ℕ) : List (List ℚ) :=
  (List.range n).map (fun i => (List.range 12).map (fun j => G 42 (12 * i + j)))

/-- `rng.choice([0, 4, 5], size=num_jets)`, drawn right after the raw block. -/
def flavourLabels (G : RngFun) (n : ℕ) : List ℤ :=
  choiceList G 42 (12 * n) [0, 4, 5] 0 n

/-- `rng.choice([0, 4, 5, 15], size=num_jets)`. -/
def hadLabels (G : RngFun) (n : ℕ) : List ℤ :=
  choiceList G 42 (12 * n + n) [0, 4, 5, 15] 0 n

/-- `rng.choice([1, 10, 11, 12], size=num_jets)`. -/
def r10Labels (G : RngFun) (n : ℕ) : List ℤ :=
  choiceList G 42 (12 * n + n + n) [1, 10, 11, 12] 0 n

/-- Absolute value under a `Val.q`, the effect of `np.abs` on an `f4` column. -/
def valAbs : Val → Val
  | .q x => .q |x|
  | v => v

/-- The base jet array of `mock_jets`, before the tagger scores are attached:
`u2s` of the raw block followed by the in-place column updates of the source,
in source order. -/
def jetsBase (G : RngFun) (n : ℕ) : SArr :=
  let jets0 := u2s JET_VARS [n] (rawJets G n)
  let jets1 := setCol jets0 "flavour_label" ((flavourLabels G n).map Val.z)
  let jets2 := mapColQ jets1 "pt" (fun x => x * 400000)
  let jets3 := mapColQ jets2 "mass" (fun x => x * 50000)
  let jets4 := mapColQ jets3 "eta" (fun x => (x - 1/2) * 6)
  let jets5 := setCol jets4 "abs_eta" ((jets4.col "eta").map valAbs)
  let jets6 := setCol jets5 "n_truth_promptLepton" (List.replicate n (Val.z 0))
  let jets7 := setCol jets6 "HadronConeExclTruthLabelID" ((hadLabels G n).map Val.z)
  setCol jets7 "R10TruthLabel_R22v1" ((r10Labels G n).map Val.z)

/-- `mock_jets(num_jets)`: the generator is re-seeded with 42 on entry; the two
score blocks are keyed off the two truth-label columns and merged onto the base
fields by the schema merger. -/
def mockJets (e : ℚ → ℚ) (G : RngFun) (n : ℕ) : Except Err SArr := do
  let jets := jetsBase G n
  let scores ← getMockScores e G false (hadLabels G n)
  let xbbScores ← getMockScores e G true (r10Labels G n)
  joinStructuredArrays [jets, scores, xbbScores]

/-- `mock_jets` as seen by a stateful-generator semantics: the ambient generator
state a caller might carry is discarded, because the first statement of the
source re-creates the generator from the fixed seed 42. -/
def mockJetsFrom (e : ℚ → ℚ) (G : RngFun) (_ambient : RngState) (n : ℕ) : Except Err SArr :=
  mockJets e G n

/-- The raw `rng.random((num_jets, num_tracks, len(TRACK_VARS)))` block,
flattened row-major: cell `(i, k)`, column `j` sits at position
`21 * (i * num_tracks + k) + j`. -/
def rawTracks (G : RngFun) (n t : ℕ) : List (List ℚ) :=
  (List.range (n * t)).map (fun r => (List.range 21).map (fun j => G 42 (21 * r + j)))

/-- The track array of `mock_tracks` before the validity mask is attached:
re-seeded draws, `d0` scaled by 5, and the two shared-hit counters overwritten
with small integers (`rng.integers(0, 3, ...)`, i.e. values `0..2`). -/
def tracksBase (G : RngFun) (n t : ℕ) : SArr :=
  let tracks0 := u2s TRACK_VARS [n, t] (rawTracks G n t)
  let tracks1 := mapColQ tracks0 "d0" (fun x => x * 5)
  let tracks2 := setCol tracks1 "numberOfPixelSharedHits"
    ((choiceList G 42 (21 * (n * t)) [0, 1, 2] 0 (n * t)).map Val.z)
  setCol tracks2 "numberOfSCTSharedHits"
    ((choiceList G 42 (21 * (n * t) + n * t) [0, 1, 2] 0 (n * t)).map Val.z)

/-- The `valid` mask of `mock_tracks`: an independent uniformly drawn boolean
per `(jet, slot)`, viewed as a one-field record array. -/
def validArr (G : RngFun) (n t : ℕ) : SArr :=
  ⟨[("valid", DType.b)], [n, t],
    (choiceList G 42 (21 * (n * t) + n * t + n * t) [true, false] false (n * t)).map
      (fun v => [("valid", Val.bo v)])⟩

/-- `mock_tracks(num_jets, num_tracks)`: the track fields and the validity mask
are merged by the schema merger. -/
def mockTracks (G : RngFun) (n t : ℕ) : Except Err SArr :=
  joinStructuredArrays [tracksBase G n t, validArr G n t]

/-- The hierarchical container written by `get_mock_file`, reduced to its
observable content: named datasets in creation order, plus the marker
attributes.  File naming, directories and handles are the external boundary
(spec section 4.5) and are not modelled. -/
structure H5File where
  datasets : List (String × SArr)
  fileAttrs : List (String × String)
  jetAttrs : List (String × String)
deriving DecidableEq

/-- `get_mock_file(num_jets, fname, tracks_name, num_tracks)` without the file
naming: writes the jet dataset and, when `tracks_name` is truthy (a non-empty
string), a track dataset under that name. -/
def getMockFile (e : ℚ → ℚ) (G : RngFun) (numJets : ℕ) (tracksName : String)
    (numTracks : ℕ) : Except Err H5File := do
  let jets ← mockJets e G numJets
  let f0 : H5File := ⟨[("jets", jets)], [("test", "test")], [("test", "test")]⟩
  if tracksName ≠ "" then
    let tracks ← mockTracks G numJets numTracks
    pure ⟨f0.datasets ++ [(tracksName, tracks)], f0.fileAttrs, f0.jetAttrs⟩
  else
    pure f0

/-- `get_mock_file` called with every optional parameter absent: the source
defaults are `num_jets=1000`, `tracks_name="tracks"`, `num_tracks=40`. -/
def getMockFileDefaults (e : ℚ → ℚ) (G : RngFun) : Except Err H5File :=
  getMockFile e G 1000 "tracks" 40

/-- A concrete positive stand-in for `np.exp`, used to instantiate witnesses. -/
def eW : ℚ → ℚ := fun q => 1 + q * q

/-- A concrete generator stream with values in `[0, 1)`, used for witnesses. -/
def GW : RngFun := fun _ i => ((i % 7 : ℕ) : ℚ) / 10

theorem eW_pos : ∀ q : ℚ, 0 < eW q := by
  intro q
  have h : (0 : ℚ) ≤ q * q := mul_self_nonneg q
  have h1 : (0 : ℚ) < 1 := one_pos
  simpa [eW] using add_pos_of_pos_of_nonneg h1 h

theorem GW_mem_unit : ∀ s i, 0 ≤ GW s i ∧ GW s i < 1 := by
  intro s i
  constructor
  · exact div_nonneg (by positivity) (by norm_num)
  · have h : ((i % 7 : ℕ) : ℚ) < 10 := by
      have := Nat.mod_lt i (by norm_num : 0 < 7)
      have h7 : ((i % 7 : ℕ) : ℚ) < 7 := by exact_mod_cast this
      linarith
    show ((i % 7 : ℕ) : ℚ) / 10 < 1
    rw [div_lt_one (by norm_num)]
    linarith

/-! ### Generic list lemmas -/

theorem zipWith_map_same {α β γ δ : Type} (h : β → γ → δ) (f : α → β) (g : α → γ) :
    ∀ l : List α, List.zipWith h (l.map f) (l.map g) = l.map (fun x => h (f x) (g x))
  | [] => rfl
  | x :: xs => by simp [zipWith_map_same h f g xs]

theorem range_map_const {α : Type} (c : α) (n : ℕ) :
    List.replicate n c = (List.range n).map (fun _ => c) := by
  induction n with
  | zero => rfl
  | succ k ih => rw [List.range_succ, List.map_append, ← ih, List.replicate_succ']; rfl

theorem sum_map_div (l : List ℚ) (c : ℚ) : (l.map (fun x => x / c)).sum = l.sum / c := by
  induction l with
  | nil => simp
  | cons x xs ih => simp [ih, add_div]

theorem nodup_subset_length {l l' : List ℤ} (hnd : l.Nodup) (hsub : l ⊆ l') :
    l.length ≤ l'.length := by
  calc l.length = l.toFinset.card := (List.toFinset_card_of_nodup hnd).symm
    _ ≤ l'.toFinset.card := Finset.card_le_card (fun x hx => by
        rw [List.mem_toFinset] at hx ⊢; exact hsub hx)
    _ ≤ l'.length := List.toFinset_card_le l'

/-! ### Lookup and column lemmas -/

theorem rlookup_append_left {name : String} {r1 : List (String × Val)} {v : Val}
    (h : rlookup name r1 = some v) (r2 : List (String × Val)) :
    rlookup name (r1 ++ r2) = some v := by
  induction r1 with
  | nil => simp [rlookup] at h
  | cons p ps ih =>
    by_cases hp : p.1 = name
    · simpa [rlookup, hp] using by simpa [rlookup, hp] using h
    · rw [List.cons_append, rlookup, if_neg hp]
      exact ih (by simpa [rlookup, hp] using h)

/-! ### Softmax lemmas -/

theorem softmaxRow_length (e : ℚ → ℚ) (xs : List ℚ) :
    (softmaxRow e xs).length = xs.length := by
  simp [softmaxRow]

theorem softmaxRow_sum (e : ℚ → ℚ) (he : ∀ q, 0 < e q) (xs : List ℚ) (hne : xs ≠ []) :
    (softmaxRow e xs).sum = 1 := by
  have hpos : 0 < (xs.map (fun x => e (x - rowMax xs))).sum := by
    apply List.sum_pos
    · intro a ha
      rcases List.mem_map.1 ha with ⟨x, _, rfl⟩
      exact he _
    · simpa using hne
  simp only [softmaxRow]
  rw [sum_map_div]
  exact div_self (ne_of_gt hpos)

theorem softmaxRow_nonneg (e : ℚ → ℚ) (he : ∀ q, 0 < e q) (xs : List ℚ) :
    ∀ y ∈ softmaxRow e xs, 0 ≤ y := by
  intro y hy
  simp only [softmaxRow, List.mem_map] at hy
  rcases hy with ⟨u, hu, rfl⟩
  rcases hu with ⟨x, hx, rfl⟩
  have hne : xs.map (fun x => e (x - rowMax xs)) ≠ [] :=
    List.ne_nil_of_mem (List.mem_map_of_mem _ hx)
  have hpos : 0 < (xs.map (fun x => e (x - rowMax xs))).sum := by
    apply List.sum_pos
    · intro a ha
      rcases List.mem_map.1 ha with ⟨z, _, rfl⟩
      exact he _
    · exact hne
  exact div_nonneg (le_of_lt (he _)) (le_of_lt hpos)

/-! ### `np.unique`: sorted distinct labels -/

theorem insertSorted_mem (x y : ℤ) : ∀ l : List ℤ, y ∈ insertSorted x l ↔ y = x ∨ y ∈ l
  | [] => by simp [insertSorted]
  | z :: zs => by
    rcases lt_trichotomy x z with h1 | h1 | h1
    · simp [insertSorted, h1]
    · subst h1
      rw [insertSorted, if_neg (lt_irrefl x), if_pos rfl]
      simp only [List.mem_cons]
      tauto
    · rw [insertSorted, if_neg (asymm h1), if_neg (ne_of_gt h1)]
      simp only [List.mem_cons, insertSorted_mem x y zs]
      tauto

theorem insertSorted_pairwise (x : ℤ) :
    ∀ l : List ℤ, l.Pairwise (· < ·) → (insertSorted x l).Pairwise (· < ·)
  | [], _ => by simp [insertSorted]
  | z :: zs, h => by
    rcases List.pairwise_cons.1 h with ⟨hz, hzs⟩
    rcases lt_trichotomy x z with h1 | h1 | h1
    · rw [insertSorted, if_pos h1]
      refine List.pairwise_cons.2 ⟨?_, h⟩
      intro y hy
      rcases List.mem_cons.1 hy with rfl | hy
      · exact h1
      · exact lt_trans h1 (hz y hy)
    · subst h1
      rw [insertSorted, if_neg (lt_irrefl x), if_pos rfl]
      exact h
    · rw [insertSorted, if_neg (asymm h1), if_neg (ne_of_gt h1)]
      refine List.pairwise_cons.2 ⟨?_, insertSorted_pairwise x zs hzs⟩
      intro y hy
      rcases (insertSorted_mem x y zs).1 hy with rfl | hy
      · exact h1
      · exact hz y hy

theorem distinctSorted_pairwise (l : List ℤ) : (distinctSorted l).Pairwise (· < ·) := by
  induction l with
  | nil => simp [distinctSorted]
  | cons x xs ih => exact insertSorted_pairwise x _ ih

theorem distinctSorted_nodup (l : List ℤ) : (distinctSorted l).Nodup :=
  (distinctSorted_pairwise l).imp ne_of_lt

theorem distinctSorted_mem (l : List ℤ) (y : ℤ) : y ∈ distinctSorted l ↔ y ∈ l := by
  induction l with
  | nil => simp [distinctSorted]
  | cons x xs ih =>
    show y ∈ insertSorted x (distinctSorted xs) ↔ _
    rw [insertSorted_mem, ih, List.mem_cons]

/-! ### The score-synthesizer loop -/

theorem drawRow_length (G : RngFun) (seed pos : ℕ) (loc : List ℚ) (scale : ℚ) :
    (drawRow G seed pos loc scale).length = nclass := by
  simp [drawRow]

theorem drawBlock_rows (G : RngFun) (seed pos : ℕ) (loc : List ℚ) (scale : ℚ) (count : ℕ) :
    ∀ r ∈ drawBlock G seed pos loc scale count, r.length = nclass := by
  intro r hr
  rcases List.mem_map.1 hr with ⟨k, _, rfl⟩
  exact drawRow_length G seed _ loc scale

theorem scatter_length (l : ℤ) :
    ∀ (lbs : List ℤ) (rows m : List (List ℚ)), (scatter l lbs rows m).length = m.length
  | [], rows, [] => rfl
  | [], rows, r :: rs => rfl
  | lb :: lbs, rows, [] => rfl
  | lb :: lbs, rows, r :: rs => by
    by_cases h : lb = l <;>
      simp [scatter, h, scatter_length l lbs]

theorem scatter_rows (l : ℤ) (k : ℕ) :
    ∀ (lbs : List ℤ) (rows m : List (List ℚ)), (∀ r ∈ m, r.length = k) →
      (∀ r ∈ rows, r.length = k) → ∀ r ∈ scatter l lbs rows m, r.length = k
  | [], rows, [], _, _ => by simp [scatter]
  | [], rows, r :: rs, hm, _ => by simpa [scatter] using hm
  | lb :: lbs, rows, [], _, _ => by simp [scatter]
  | lb :: lbs, rows, r :: rs, hm, hrows => by
    have hr : r.length = k := hm r (List.mem_cons_self r rs)
    have hrs : ∀ x ∈ rs, x.length = k := fun x hx => hm x (List.mem_cons_of_mem r hx)
    by_cases h : lb = l
    · rw [scatter, if_pos h]
      intro x hx
      rcases List.mem_cons.1 hx with rfl | hx
      · cases rows with
        | nil => exact hr
        | cons w ws => exact hrows w (List.mem_cons_self w ws)
      · refine scatter_rows l k lbs rows.tail rs hrs ?_ x hx
        intro y hy
        exact hrows y (List.mem_of_mem_tail hy)
    · rw [scatter, if_neg h]
      intro x hx
      rcases List.mem_cons.1 hx with rfl | hx
      · exact hr
      · exact scatter_rows l k lbs rows rs hrs hrows x hx

theorem scales_get {i : ℕ} (h : i < 4) :
    scalesList.get? i = some (scalesList.getD i 0) := by
  interval_cases i <;> rfl

theorem scales_get_lt {i : ℕ} {sc : ℚ} (h : scalesList.get? i = some sc) : i < 4 := by
  by_contra hi
  rw [List.get?_eq_none.2 (by simpa [scalesList] using Nat.le_of_not_lt hi)] at h
  exact Option.noConfusion h

theorem scoreLoop_ok (G : RngFun) (mapping : List (ℤ × List ℚ)) (labels : List ℤ) :
    ∀ (rest : List ℤ) (i pos : ℕ) (m : List (List ℚ)) (tr : List (ℤ × ℚ)),
      (∀ l ∈ rest, (mlookup l mapping).isSome) → i + rest.length ≤ 4 →
      ∃ m' tr', scoreLoop G mapping labels rest i pos m tr = .ok (m', tr')
  | [], i, pos, m, tr, _, _ => ⟨m, tr, rfl⟩
  | l :: rest', i, pos, m, tr, hknown, hlen => by
    rcases Option.isSome_iff_exists.1 (hknown l (List.mem_cons_self l rest')) with ⟨loc, hloc⟩
    have hi : i < 4 := by
      have := hlen
      simp only [List.length_cons] at this
      omega
    have hrest : ∀ x ∈ rest', (mlookup x mapping).isSome :=
      fun x hx => hknown x (List.mem_cons_of_mem l hx)
    have hlen' : i + 1 + rest'.length ≤ 4 := by
      simp only [List.length_cons] at hlen
      omega
    rcases scoreLoop_ok G mapping labels rest' (i + 1)
        (pos + nclass * labels.count l)
        (scatter l labels (drawBlock G 42 pos loc (scalesList.getD i 0) (labels.count l)) m)
        (tr ++ [(l, scalesList.getD i 0)]) hrest hlen' with ⟨m', tr', hrec⟩
    refine ⟨m', tr', ?_⟩
    rw [scoreLoop, hloc, scales_get hi]
    exact hrec

theorem scoreLoop_ok_inv (G : RngFun) (mapping : List (ℤ × List ℚ)) (labels : List ℤ) :
    ∀ (rest : List ℤ) (i pos : ℕ) (m : List (List ℚ)) (tr : List (ℤ × ℚ))
      (m' : List (List ℚ)) (tr' : List (ℤ × ℚ)),
      scoreLoop G mapping labels rest i pos m tr = .ok (m', tr') →
      ((∀ r ∈ m, r.length = nclass) → (∀ r ∈ m', r.length = nclass))
      ∧ m'.length = m.length
      ∧ tr' = tr ++ (rest.enumFrom i).map (fun p => (p.2, scalesList.getD p.1 0))
      ∧ (i + rest.length ≤ 4 ∨ rest = [])
  | [], i, pos, m, tr, m', tr', h => by
    rw [scoreLoop] at h
    rcases Except.ok.inj h with h2
    rcases Prod.mk.injEq .. ▸ h2 with ⟨rfl, rfl⟩
    exact ⟨fun hm => hm, rfl, by simp, Or.inr rfl⟩
  | l :: rest', i, pos, m, tr, m', tr', h => by
    rw [scoreLoop] at h
    rcases hloc : mlookup l mapping with _ | loc
    · rw [hloc] at h; exact absurd h (by simp)
    rw [hloc] at h
    rcases hsc : scalesList.get? i with _ | sc
    · rw [hsc] at h; exact absurd h (by simp)
    rw [hsc] at h
    have hi : i < 4 := scales_get_lt hsc
    have hscd : sc = scalesList.getD i 0 := by
      have h4 := scales_get hi
      rw [hsc] at h4
      exact Option.some.inj h4
    rcases scoreLoop_ok_inv G mapping labels rest' (i + 1)
        (pos + nclass * labels.count l)
        (scatter l labels (drawBlock G 42 pos loc sc (labels.count l)) m)
        (tr ++ [(l, sc)]) m' tr' h with ⟨hrows, hlen, htr, hbound⟩
    refine ⟨?_, ?_, ?_, ?_⟩
    · intro hm
      exact hrows (scatter_rows l nclass labels _ m hm (drawBlock_rows G 42 pos loc sc _))
    · rw [hlen, scatter_length]
    · rw [htr, hscd, List.enumFrom_cons, List.map_cons, List.append_assoc]
      rfl
    · left
      simp only [List.length_cons]
      rcases hbound with hb | hb
      · omega
      · subst hb
        simp only [List.length_nil]
        omega

theorem scoreLoop_unknown (G : RngFun) (mapping : List (ℤ × List ℚ)) (labels : List ℤ) :
    ∀ (rest : List ℤ) (i pos : ℕ) (m : List (List ℚ)) (tr : List (ℤ × ℚ)),
      (∃ x ∈ rest, mlookup x mapping = none) →
      i + (rest.filter (fun x => (mlookup x mapping).isSome)).length ≤ 4 →
      ∃ u, u ∈ rest ∧ mlookup u mapping = none ∧
        scoreLoop G mapping labels rest i pos m tr = .error (.unknownLabel u)
  | [], _, _, _, _, hex, _ => by simp at hex
  | l :: rest', i, pos, m, tr, hex, hflt => by
    rcases hloc : mlookup l mapping with _ | loc
    · exact ⟨l, List.mem_cons_self l rest', hloc, by rw [scoreLoop, hloc]⟩
    · have hex' : ∃ x ∈ rest', mlookup x mapping = none := by
        rcases hex with ⟨x, hx, hxnone⟩
        rcases List.mem_cons.1 hx with rfl | hx
        · rw [hloc] at hxnone; exact absurd hxnone (by simp)
        · exact ⟨x, hx, hxnone⟩
      have hfl : (List.filter (fun x => (mlookup x mapping).isSome) (l :: rest')).length
          = 1 + (rest'.filter (fun x => (mlookup x mapping).isSome)).length := by
        rw [List.filter_cons_of_pos (by simp [hloc])]
        simp [Nat.add_comm]
      rw [hfl] at hflt
      have hi : i < 4 := by omega
      have hflt' : i + 1 + (rest'.filter (fun x => (mlookup x mapping).isSome)).length ≤ 4 := by
        omega
      rcases scoreLoop_unknown G mapping labels rest' (i + 1)
          (pos + nclass * labels.count l)
          (scatter l labels
            (drawBlock G 42 pos loc (scalesList.getD i 0) (labels.count l)) m)
          (tr ++ [(l, scalesList.getD i 0)]) hex' hflt' with ⟨u, hu, hunone, hrec⟩
      refine ⟨u, List.mem_cons_of_mem l hu, hunone, ?_⟩
      rw [scoreLoop, hloc, scales_get hi]
      exact hrec

/-! ### Choice draws -/

theorem choiceList_length {α : Type} (G : RngFun) (seed pos : ℕ) (opts : List α) (dflt : α)
    (cnt : ℕ) : (choiceList G seed pos opts dflt cnt).length = cnt := by
  simp [choiceList]

theorem chooseU_mem {α : Type} (opts : List α) (dflt : α) (u : ℚ) (hne : opts ≠ []) :
    chooseU opts dflt u ∈ opts := by
  have hlen : 0 < opts.length := List.length_pos.2 hne
  have hidx : min (Int.toNat (truncQ (u * (opts.length : ℚ)))) (opts.length - 1)
      < opts.length := by omega
  rw [chooseU, List.getD_eq_getElem opts dflt hidx]
  exact List.getElem_mem hidx

theorem choiceList_mem {α : Type} (G : RngFun) (seed pos : ℕ) (opts : List α) (dflt : α)
    (cnt : ℕ) (hne : opts ≠ []) : ∀ x ∈ choiceList G seed pos opts dflt cnt, x ∈ opts := by
  intro x hx
  rcases List.mem_map.1 hx with ⟨i, _, rfl⟩
  exact chooseU_mem opts dflt _ hne

/-! ### Success and content of the score synthesizer -/

theorem known_mem_keys {x : ℤ} : ∀ mp : List (ℤ × List ℚ),
    (mlookup x mp).isSome → x ∈ mp.map Prod.fst
  | [], h => by simp [mlookup] at h
  | p :: ps, h => by
    by_cases hp : p.1 = x
    · simp [hp]
    · rw [mlookup, if_neg hp] at h
      exact List.mem_cons_of_mem _ (known_mem_keys ps h)

theorem mapping_keys_length (isXbb : Bool) : ((labelMapping isXbb).map Prod.fst).length = 4 := by
  cases isXbb <;> rfl

theorem mapping_keys_nodup (isXbb : Bool) : ((labelMapping isXbb).map Prod.fst).Nodup := by
  cases isXbb <;> decide

theorem distinct_length_le (isXbb : Bool) (labels : List ℤ)
    (hknown : ∀ l ∈ labels, knownLabel isXbb l = true) :
    (distinctSorted labels).length ≤ 4 := by
  have hsub : distinctSorted labels ⊆ (labelMapping isXbb).map Prod.fst := by
    intro x hx
    have hx' : x ∈ labels := (distinctSorted_mem labels x).1 hx
    exact known_mem_keys _ (by simpa [knownLabel] using hknown x hx')
  calc (distinctSorted labels).length
      ≤ ((labelMapping isXbb).map Prod.fst).length :=
        nodup_subset_length (distinctSorted_nodup labels) hsub
    _ = 4 := mapping_keys_length isXbb

theorem getMockScoresT_eq (e : ℚ → ℚ) (G : RngFun) (isXbb : Bool) (labels : List ℤ) :
    getMockScoresT e G isXbb labels
      = match scoreLoop G (labelMapping isXbb) labels (distinctSorted labels) 0 0
          (List.replicate labels.length (List.replicate nclass (0 : ℚ))) [] with
        | .error err => .error err
        | .ok (m, tr) =>
          .ok (u2s (scoreFields isXbb) [labels.length] (m.map (softmaxRow e)), tr) := rfl

theorem getMockScoresT_ok (e : ℚ → ℚ) (G : RngFun) (isXbb : Bool) (labels : List ℤ)
    (hknown : ∀ l ∈ labels, knownLabel isXbb l = true) :
    ∃ arr tr, getMockScoresT e G isXbb labels = .ok (arr, tr)
      ∧ arr.fields = scoreFields isXbb ∧ arr.shape = [labels.length]
      ∧ arr.data.length = labels.length := by
  have hdk : ∀ l ∈ distinctSorted labels, (mlookup l (labelMapping isXbb)).isSome := by
    intro l hl
    simpa [knownLabel] using hknown l ((distinctSorted_mem labels l).1 hl)
  have hlen : 0 + (distinctSorted labels).length ≤ 4 := by
    simpa using distinct_length_le isXbb labels hknown
  rcases scoreLoop_ok G (labelMapping isXbb) labels (distinctSorted labels) 0 0
      (List.replicate labels.length (List.replicate nclass (0 : ℚ))) [] hdk hlen
    with ⟨m', tr', hloop⟩
  have hinv := scoreLoop_ok_inv G (labelMapping isXbb) labels (distinctSorted labels) 0 0
      (List.replicate labels.length (List.replicate nclass (0 : ℚ))) [] m' tr' hloop
  refine ⟨u2s (scoreFields isXbb) [labels.length] (m'.map (softmaxRow e)), tr', ?_, rfl, rfl, ?_⟩
  · rw [getMockScoresT_eq, hloop]
  · show ((m'.map (softmaxRow e)).map _).length = labels.length
    rw [List.length_map, List.length_map, hinv.2.1, List.length_replicate]

/-- A record is a probability row: its values sum to 1 and are non-negative. -/
def isProbRow (row : List (String × Val)) : Prop :=
  (row.map (fun p => p.2.toQ)).sum = 1 ∧ ∀ p ∈ row, 0 ≤ p.2.toQ

instance (row : List (String × Val)) : Decidable (isProbRow row) := by
  unfold isProbRow
  infer_instance

theorem list_len4 {α : Type} (xs : List α) (h : xs.length = 4) :
    ∃ a b c d, xs = [a, b, c, d] := by
  rcases xs with _ | ⟨a, xs⟩
  · simp at h
  rcases xs with _ | ⟨b, xs⟩
  · simp at h
  rcases xs with _ | ⟨c, xs⟩
  · simp at h
  rcases xs with _ | ⟨d, xs⟩
  · simp at h
  rcases xs with _ | ⟨e, xs⟩
  · exact ⟨a, b, c, d, rfl⟩
  · simp at h

theorem scoreRecord_map_toQ : ∀ (isXbb : Bool) (a b c d : ℚ),
    (List.zipWith mkEntry (scoreFields isXbb) [a, b, c, d]).map (fun p => p.2.toQ)
      = [a, b, c, d]
  | false, _, _, _, _ => rfl
  | true, _, _, _, _ => rfl

theorem scoreRecord_nonneg (isXbb : Bool) (a b c d : ℚ)
    (ha : 0 ≤ a) (hb : 0 ≤ b) (hc : 0 ≤ c) (hd : 0 ≤ d) :
    ∀ p ∈ List.zipWith mkEntry (scoreFields isXbb) [a, b, c, d], 0 ≤ p.2.toQ := by
  intro p hp
  cases isXbb <;>
    simp [scoreFields, stdLabelDict, xbbLabelDict, mkEntry, castVal] at hp <;>
    rcases hp with rfl | rfl | rfl | rfl <;>
    simp [Val.toQ] <;> assumption

theorem scores_data_shape (e : ℚ → ℚ) (G : RngFun) (isXbb : Bool) (labels : List ℤ)
    {arr : SArr} {tr : List (ℤ × ℚ)}
    (h : getMockScoresT e G isXbb labels = .ok (arr, tr)) :
    ∃ m' : List (List ℚ),
      arr = u2s (scoreFields isXbb) [labels.length] (m'.map (softmaxRow e))
      ∧ (∀ r ∈ m', r.length = nclass) ∧ m'.length = labels.length := by
  rw [getMockScoresT_eq] at h
  rcases hloop : scoreLoop G (labelMapping isXbb) labels (distinctSorted labels) 0 0
      (List.replicate labels.length (List.replicate nclass (0 : ℚ))) []
    with err | ⟨m', tr0⟩
  · rw [hloop] at h
    exact absurd h (by simp)
  · rw [hloop] at h
    have hinv := scoreLoop_ok_inv G (labelMapping isXbb) labels (distinctSorted labels) 0 0
        (List.replicate labels.length (List.replicate nclass (0 : ℚ))) [] m' tr0 hloop
    have hpair : (u2s (scoreFields isXbb) [labels.length] (m'.map (softmaxRow e)), tr0)
        = (arr, tr) := Except.ok.inj h
    have harr : arr = u2s (scoreFields isXbb) [labels.length] (m'.map (softmaxRow e)) :=
      ((Prod.ext_iff.1 hpair).1).symm
    refine ⟨m', harr, ?_, ?_⟩
    · intro r hr
      refine hinv.1 ?_ r hr
      intro r0 hr0
      rw [List.eq_of_mem_replicate hr0]
      simp
    · rw [hinv.2.1]
      simp

/-- Key property behind claim C2: every row an accepted call produces is a
probability distribution. -/
theorem scores_rows_prob (e : ℚ → ℚ) (G : RngFun) (isXbb : Bool) (labels : List ℤ)
    {arr : SArr} (he : ∀ q, 0 < e q) (h : getMockScores e G isXbb labels = .ok arr) :
    ∀ row ∈ arr.data, isProbRow row := by
  rw [getMockScores] at h
  rcases ht : getMockScoresT e G isXbb labels with err | ⟨arr0, tr⟩
  · rw [ht] at h
    exact absurd h (by simp [Except.map])
  · rw [ht] at h
    have harr : arr0 = arr := by
      simpa [Except.map] using h
    subst harr
    rcases scores_data_shape e G isXbb labels ht with ⟨m', harr, hrows, _⟩
    subst harr
    intro row hrow
    simp only [u2s, List.map_map, List.mem_map] at hrow
    rcases hrow with ⟨r, hr, rfl⟩
    have hrlen : (softmaxRow e r).length = 4 := by
      rw [softmaxRow_length]
      exact hrows r hr
    have hrne : r ≠ [] := by
      intro hnil
      rw [hnil] at hrlen
      simp [softmaxRow, rowMax] at hrlen
    have hsum : (softmaxRow e r).sum = 1 := softmaxRow_sum e he r hrne
    have hnn := softmaxRow_nonneg e he r
    rcases list_len4 (softmaxRow e r) hrlen with ⟨a, b, c, d, habcd⟩
    show isProbRow (List.zipWith mkEntry (scoreFields isXbb) (softmaxRow e r))
    rw [habcd]
    constructor
    · rw [scoreRecord_map_toQ, ← habcd]
      exact hsum
    · refine scoreRecord_nonneg isXbb a b c d ?_ ?_ ?_ ?_ <;>
        refine hnn _ ?_ <;> rw [habcd] <;> simp

/-! ### Row-level characterisation of the base jet array -/

/-- The record the source builds for jet `i` out of `num_jets = n`: the raw
uniform draws, rescaled and overwritten exactly as the column updates of
`mock_jets` dictate. -/
def jetRow (G : RngFun) (n i : ℕ) : List (String × Val) :=
  [("pt", .q (G 42 (12 * i) * 400000)),
   ("eta", .q ((G 42 (12 * i + 1) - 1/2) * 6)),
   ("abs_eta", .q |(G 42 (12 * i + 1) - 1/2) * 6|),
   ("mass", .q (G 42 (12 * i + 3) * 50000)),
   ("pt_btagJes", .q (G 42 (12 * i + 4))),
   ("eta_btagJes", .q (G 42 (12 * i + 5))),
   ("n_tracks", .z (truncQ (G 42 (12 * i + 6)))),
   ("HadronConeExclTruthLabelID", .z (chooseU [0, 4, 5, 15] 0 (G 42 (12 * n + n + i)))),
   ("HadronConeExclTruthLabelPt", .q (G 42 (12 * i + 8))),
   ("R10TruthLabel_R22v1", .z (chooseU [1, 10, 11, 12] 0 (G 42 (12 * n + n + n + i)))),
   ("n_truth_promptLepton", .z 0),
   ("flavour_label", .z (chooseU [0, 4, 5] 0 (G 42 (12 * n + i))))]

theorem jetsBase_eq (G : RngFun) (n : ℕ) :
    jetsBase G n = ⟨JET_VARS, [n], (List.range n).map (jetRow G n)⟩ := by
  simp only [jetsBase, u2s, setCol, mapColQ, SArr.col, rawJets, flavourLabels, hadLabels,
    r10Labels, choiceList, range_map_const, List.map_map, zipWith_map_same, SArr.mk.injEq]
  refine ⟨trivial, trivial, ?_⟩
  apply List.map_congr_left
  intro i _
  rfl

/-! ### Success path of the schema merger -/

theorem firstDup_eq_none : ∀ {l : List String}, l.Nodup → firstDup l = none
  | [], _ => rfl
  | x :: xs, h => by
    rw [firstDup, if_neg (List.nodup_cons.1 h).1]
    exact firstDup_eq_none (List.nodup_cons.1 h).2

theorem firstDup_isSome : ∀ {l : List String}, ¬ l.Nodup → ∃ f, firstDup l = some f ∧ 2 ≤ l.count f
  | [], h => absurd List.nodup_nil h
  | x :: xs, h => by
    by_cases hx : x ∈ xs
    · refine ⟨x, by rw [firstDup, if_pos hx], ?_⟩
      have h1 : 1 ≤ xs.count x := List.one_le_count_iff.2 hx
      simp only [List.count_cons_self]
      omega
    · have hxs : ¬ xs.Nodup := fun hn => h (List.nodup_cons.2 ⟨hx, hn⟩)
      rcases firstDup_isSome hxs with ⟨f, hf, hcnt⟩
      refine ⟨f, by rw [firstDup, if_neg hx]; exact hf, ?_⟩
      calc 2 ≤ xs.count f := hcnt
        _ ≤ (x :: xs).count f := List.count_le_count_cons f x xs

theorem getD_map_range {α : Type} (f : ℕ → α) (n i : ℕ) (hi : i < n) (d : α) :
    (((List.range n).map f).getD i d) = f i := by
  rw [List.getD_eq_getElem?_getD, List.getElem?_map, List.getElem?_range hi]
  rfl

theorem rlookup_isSome (name : String) :
    ∀ row : List (String × Val), (rlookup name row).isSome = true ↔ name ∈ row.map Prod.fst
  | [] => by simp [rlookup]
  | p :: ps => by
    by_cases hp : p.1 = name
    · simp [rlookup, hp]
    · rw [rlookup, if_neg hp]
      simp only [List.map_cons, List.mem_cons]
      rw [rlookup_isSome name ps]
      constructor
      · exact Or.inr
      · rintro (rfl | hm)
        · exact absurd rfl hp
        · exact hm

theorem joinStructuredArrays_two (a b : SArr) (hb : b.shape = a.shape)
    (hnd : (a.fields.map Prod.fst ++ (b.fields.map Prod.fst ++ [])).Nodup) :
    joinStructuredArrays [a, b]
      = .ok ⟨a.fields ++ (b.fields ++ []), a.shape,
          (List.range a.data.length).map
            (fun i => a.data.getD i [] ++ (b.data.getD i [] ++ []))⟩ := by
  have hfm : findMismatch a.shape [b] = none := by
    rw [findMismatch, if_pos hb]
    rfl
  have hfd : firstDup (([a, b].map (fun x => x.fields.map Prod.fst)).flatten) = none := by
    apply firstDup_eq_none
    simpa using hnd
  simp only [joinStructuredArrays, hfm, hfd]
  rfl

theorem joinStructuredArrays_three (a b c : SArr) (hb : b.shape = a.shape)
    (hc : c.shape = a.shape)
    (hnd : (a.fields.map Prod.fst
        ++ (b.fields.map Prod.fst ++ (c.fields.map Prod.fst ++ []))).Nodup) :
    joinStructuredArrays [a, b, c]
      = .ok ⟨a.fields ++ (b.fields ++ (c.fields ++ [])), a.shape,
          (List.range a.data.length).map
            (fun i => a.data.getD i [] ++ (b.data.getD i [] ++ (c.data.getD i [] ++ [])))⟩ := by
  have hfm : findMismatch a.shape [b, c] = none := by
    rw [findMismatch, if_pos hb, findMismatch, if_pos hc]
    rfl
  have hfd : firstDup (([a, b, c].map (fun x => x.fields.map Prod.fst)).flatten) = none := by
    apply firstDup_eq_none
    simpa using hnd
  simp only [joinStructuredArrays, hfm, hfd]
  rfl

/-! ### The jet builder succeeds and its columns are explicit -/

theorem hadLabels_known (G : RngFun) (n : ℕ) :
    ∀ l ∈ hadLabels G n, knownLabel false l = true := by
  intro l hl
  have hm := choiceList_mem G 42 (12 * n + n) [0, 4, 5, 15] (0 : ℤ) n (by simp) l hl
  simp only [List.mem_cons, List.not_mem_nil, or_false] at hm
  rcases hm with rfl | rfl | rfl | rfl <;> decide

theorem r10Labels_known (G : RngFun) (n : ℕ) :
    ∀ l ∈ r10Labels G n, knownLabel true l = true := by
  intro l hl
  have hm := choiceList_mem G 42 (12 * n + n + n) [1, 10, 11, 12] (0 : ℤ) n (by simp) l hl
  simp only [List.mem_cons, List.not_mem_nil, or_false] at hm
  rcases hm with rfl | rfl | rfl | rfl <;> decide

theorem jetRow_keys (G : RngFun) (n i : ℕ) :
    (jetRow G n i).map Prod.fst = JET_VARS.map Prod.fst := rfl

theorem mockJets_master (e : ℚ → ℚ) (G : RngFun) (n : ℕ) :
    ∃ arr : SArr, mockJets e G n = .ok arr
      ∧ arr.fields = JET_VARS ++ (scoreFields false ++ scoreFields true)
      ∧ arr.shape = [n]
      ∧ arr.data.length = n
      ∧ ∀ name, name ∈ JET_VARS.map Prod.fst →
          arr.col name
            = (List.range n).map (fun i => (rlookup name (jetRow G n i)).getD (Val.z 0)) := by
  rcases getMockScoresT_ok e G false (hadLabels G n) (hadLabels_known G n) with
    ⟨sc, tr1, ht1, hf1, hs1, _⟩
  rcases getMockScoresT_ok e G true (r10Labels G n) (r10Labels_known G n) with
    ⟨xc, tr2, ht2, hf2, hs2, _⟩
  have hlen1 : (hadLabels G n).length = n := choiceList_length G 42 (12 * n + n) _ 0 n
  have hlen2 : (r10Labels G n).length = n := choiceList_length G 42 (12 * n + n + n) _ 0 n
  have hg1 : getMockScores e G false (hadLabels G n) = .ok sc := by
    rw [getMockScores, ht1]
    rfl
  have hg2 : getMockScores e G true (r10Labels G n) = .ok xc := by
    rw [getMockScores, ht2]
    rfl
  have hjoin : mockJets e G n = joinStructuredArrays [jetsBase G n, sc, xc] := by
    simp only [mockJets, hg1, hg2]
    rfl
  rw [jetsBase_eq] at hjoin
  set a : SArr := ⟨JET_VARS, [n], (List.range n).map (jetRow G n)⟩ with ha
  have hb : sc.shape = a.shape := by rw [hs1, hlen1]
  have hc : xc.shape = a.shape := by rw [hs2, hlen2]
  have hnd : (a.fields.map Prod.fst
      ++ (sc.fields.map Prod.fst ++ (xc.fields.map Prod.fst ++ []))).Nodup := by
    rw [hf1, hf2]
    show (JET_VARS.map Prod.fst
        ++ ((scoreFields false).map Prod.fst ++ ((scoreFields true).map Prod.fst ++ []))).Nodup
    decide
  have hadata : a.data.length = n := by simp [ha]
  refine ⟨_, hjoin.trans (joinStructuredArrays_three a sc xc hb hc hnd), ?_, rfl, ?_, ?_⟩
  · show a.fields ++ (sc.fields ++ (xc.fields ++ [])) = _
    rw [hf1, hf2]
    simp
  · show ((List.range a.data.length).map _).length = n
    rw [List.length_map, List.length_range, hadata]
  · intro name hname
    show ((List.range a.data.length).map _).map _
        = (List.range n).map (fun i => (rlookup name (jetRow G n i)).getD (Val.z 0))
    rw [List.map_map, hadata]
    apply List.map_congr_left
    intro i hi
    have hilt : i < n := List.mem_range.1 hi
    have hgetD : a.data.getD i [] = jetRow G n i := by
      simp only [ha]
      exact getD_map_range (jetRow G n) n i hilt []
    have hsome : (rlookup name (jetRow G n i)).isSome = true := by
      rw [rlookup_isSome, jetRow_keys]
      exact hname
    rcases Option.isSome_iff_exists.1 hsome with ⟨v, hv⟩
    show (rlookup name (a.data.getD i []
        ++ (sc.data.getD i [] ++ (xc.data.getD i [] ++ [])))).getD (Val.z 0)
      = (rlookup name (jetRow G n i)).getD (Val.z 0)
    rw [hgetD, rlookup_append_left hv, hv]

/-! ### The track builder succeeds -/

theorem tracksBase_fields (G : RngFun) (n t : ℕ) : (tracksBase G n t).fields = TRACK_VARS := rfl

theorem tracksBase_shape (G : RngFun) (n t : ℕ) : (tracksBase G n t).shape = [n, t] := rfl

theorem tracksBase_data_length (G : RngFun) (n t : ℕ) :
    (tracksBase G n t).data.length = n * t := by
  simp [tracksBase, setCol, mapColQ, u2s, rawTracks, choiceList, List.length_zipWith]

theorem mockTracks_master (G : RngFun) (n t : ℕ) :
    ∃ arr : SArr, mockTracks G n t = .ok arr
      ∧ arr.fields = TRACK_VARS ++ [("valid", DType.b)]
      ∧ arr.shape = [n, t]
      ∧ arr.data.length = n * t := by
  have hnd : ((tracksBase G n t).fields.map Prod.fst
      ++ ((validArr G n t).fields.map Prod.fst ++ [])).Nodup := by
    show (TRACK_VARS.map Prod.fst ++ (["valid"] ++ [])).Nodup
    decide
  have hj := joinStructuredArrays_two (tracksBase G n t) (validArr G n t) rfl hnd
  rw [mockTracks]
  refine ⟨_, hj, by simp [tracksBase_fields, validArr], rfl, ?_⟩
  show ((List.range (tracksBase G n t).data.length).map _).length = n * t
  rw [List.length_map, List.length_range, tracksBase_data_length]

/-! ### The generation entry point -/

theorem getMockFile_names (e : ℚ → ℚ) (G : RngFun) (n : ℕ) (name : String) (t : ℕ) :
    (getMockFile e G n name t).map (fun f => f.datasets.map Prod.fst)
      = .ok (if name = "" then ["jets"] else ["jets", name]) := by
  rcases mockJets_master e G n with ⟨jarr, hj, _⟩
  rcases mockTracks_master G n t with ⟨tarr, htr, _⟩
  by_cases hname : name = ""
  · subst hname
    simp [getMockFile, hj, htr, Except.map, bind, Except.bind, pure, Except.pure]
  · simp [getMockFile, hj, htr, hname, Except.map, bind, Except.bind, pure, Except.pure]

theorem truncQ_zero {x : ℚ} (h0 : 0 ≤ x) (h1 : x < 1) : truncQ x = 0 := by
  have hnum : 0 ≤ x.num := Rat.num_nonneg.2 h0
  have hden : x.num < (x.den : ℤ) := by
    by_contra hc
    push_neg at hc
    have hx1 : (1 : ℚ) ≤ x := by
      rw [← Rat.num_div_den x, le_div_iff₀ (by exact_mod_cast x.den_pos)]
      simpa using by exact_mod_cast hc
    linarith
  exact Int.tdiv_eq_zero_of_lt hnum hden

/-! ### Claims -/

/-- C1: for every sample count, two top-level calls of the jet feature builder
produce identical outputs: whatever generator state the calling context carries,
`mock_jets` discards it by re-seeding with the fixed seed 42 on entry, so the
result depends only on the sample count (and the ambient generator model). -/
theorem claim_C1_mock_jets_deterministic :
    ∀ (e : ℚ → ℚ) (G : RngFun) (s1 s2 : RngState) (n : ℕ),
      mockJetsFrom e G s1 n = mockJetsFrom e G s2 n
      ∧ mockJetsFrom e G s1 n = mockJets e G n :=
  fun _ _ _ _ _ => ⟨rfl, rfl⟩

/-- C2: whenever the score synthesizer accepts a label array, every row of the
produced array is a probability distribution: non-negative entries summing to
exactly 1 (exactly, since floats are modelled as rationals), given that the
model of `np.exp` is positive. -/
theorem claim_C2_score_rows_probability (e : ℚ → ℚ) (G : RngFun) (isXbb : Bool)
    (labels : List ℤ) (arr : SArr) (he : ∀ q, 0 < e q)
    (h : getMockScores e G isXbb labels = .ok arr) :
    ∀ row ∈ arr.data, isProbRow row :=
  scores_rows_prob e G isXbb labels he h

theorem claim_C2_witness :
    ∃ arr, getMockScores eW GW false [0, 4] = .ok arr ∧ ∀ row ∈ arr.data, isProbRow row := by
  rcases harr : getMockScores eW GW false [0, 4] with err | arr
  · rcases getMockScoresT_ok eW GW false [0, 4] (by decide) with ⟨a, t, hok, _⟩
    rw [getMockScores, hok] at harr
    exact absurd harr (by simp [Except.map])
  · exact ⟨arr, rfl, claim_C2_score_rows_probability eW GW false [0, 4] arr eW_pos harr⟩

/-- C3 (amended): the track feature builder always succeeds with output shape
exactly `(N, T)`, but its schema has the 21 `TRACK_VARS` fields plus the
validity field, 22 fields in total — not 20 + 1 = 21 as claimed. -/
theorem claim_C3_track_shape_and_fields :
    ∀ (G : RngFun) (n t : ℕ),
      ∃ arr, mockTracks G n t = .ok arr
        ∧ arr.shape = [n, t]
        ∧ arr.fields = TRACK_VARS ++ [("valid", DType.b)]
        ∧ TRACK_VARS.length = 21
        ∧ arr.fields.length = 22
        ∧ arr.data.length = n * t := by
  intro G n t
  rcases mockTracks_master G n t with ⟨arr, h, hf, hs, hd⟩
  exact ⟨arr, h, hs, hf, by decide, by rw [hf]; decide, hd⟩

theorem claim_C3_counterexample :
    ∃ arr, mockTracks GW 1000 40 = .ok arr ∧ arr.fields.length ≠ 21 := by
  rcases mockTracks_master GW 1000 40 with ⟨arr, h, hf, _⟩
  exact ⟨arr, h, by rw [hf]; decide⟩

/-- C4: the jet feature builder at `N = 1000` produces exactly 1000 records
whose schema is the 12 `JET_VARS` fields, then the 4 standard-taxonomy score
fields, then the 4 alternate-taxonomy score fields — 20 fields in that order. -/
theorem claim_C4_jet_schema (e : ℚ → ℚ) (G : RngFun) :
    ∃ arr, mockJets e G 1000 = .ok arr
      ∧ arr.data.length = 1000
      ∧ arr.fields = JET_VARS ++ (scoreFields false ++ scoreFields true)
      ∧ JET_VARS.length = 12
      ∧ (scoreFields false).length = 4
      ∧ (scoreFields true).length = 4
      ∧ arr.fields.length = 20 := by
  rcases mockJets_master e G 1000 with ⟨arr, h, hf, _, hd, _⟩
  exact ⟨arr, h, hd, hf, by decide, by decide, by decide, by rw [hf]; decide⟩

/-- C5: a label array containing a value with no entry in the active
class-parameter mapping makes the score synthesizer fail with the
unknown-label error (a `KeyError` in the source), producing no output array. -/
theorem claim_C5_unknown_label_error (e : ℚ → ℚ) (G : RngFun) (isXbb : Bool)
    (labels : List ℤ) (hbad : ∃ l ∈ labels, knownLabel isXbb l = false) :
    ∃ l', getMockScores e G isXbb labels = .error (.unknownLabel l')
      ∧ l' ∈ labels ∧ knownLabel isXbb l' = false := by
  have hex : ∃ x ∈ distinctSorted labels, mlookup x (labelMapping isXbb) = none := by
    rcases hbad with ⟨l, hl, hlf⟩
    refine ⟨l, (distinctSorted_mem labels l).2 hl, ?_⟩
    rw [knownLabel] at hlf
    exact Option.not_isSome_iff_eq_none.1 (by simp [hlf])
  have hflt : 0 + ((distinctSorted labels).filter
      (fun x => (mlookup x (labelMapping isXbb)).isSome)).length ≤ 4 := by
    have hnd : ((distinctSorted labels).filter
        (fun x => (mlookup x (labelMapping isXbb)).isSome)).Nodup :=
      (distinctSorted_nodup labels).filter _
    have hsub : (distinctSorted labels).filter
        (fun x => (mlookup x (labelMapping isXbb)).isSome)
          ⊆ (labelMapping isXbb).map Prod.fst := by
      intro x hx
      exact known_mem_keys _ (by simpa using List.of_mem_filter hx)
    have := nodup_subset_length hnd hsub
    rw [mapping_keys_length isXbb] at this
    omega
  rcases scoreLoop_unknown G (labelMapping isXbb) labels (distinctSorted labels) 0 0
      (List.replicate labels.length (List.replicate nclass (0 : ℚ))) [] hex hflt
    with ⟨u, hu, hunone, herr⟩
  refine ⟨u, ?_, (distinctSorted_mem labels u).1 hu, ?_⟩
  · rw [getMockScores, getMockScoresT_eq, herr]
    rfl
  · rw [knownLabel, hunone]
    rfl

theorem claim_C5_witness :
    (∃ l ∈ [(2 : ℤ)], knownLabel false l = false)
    ∧ ∃ l', getMockScores eW GW false [2] = .error (.unknownLabel l')
        ∧ l' ∈ [(2 : ℤ)] ∧ knownLabel false l' = false :=
  ⟨by decide, claim_C5_unknown_label_error eW GW false [2] (by decide)⟩

/-- The instrumented synthesizer fails with the unknown-label error, naming an
unmapped label, whenever the label array contains one: the same run as
`claim_C5_unknown_label_error`, stated at the `getMockScoresT` level. -/
theorem scoresT_unknown (e : ℚ → ℚ) (G : RngFun) (isXbb : Bool) (labels : List ℤ)
    (hbad : ∃ l ∈ labels, knownLabel isXbb l = false) :
    ∃ l', getMockScoresT e G isXbb labels = .error (.unknownLabel l')
      ∧ l' ∈ labels ∧ knownLabel isXbb l' = false := by
  have hex : ∃ x ∈ distinctSorted labels, mlookup x (labelMapping isXbb) = none := by
    rcases hbad with ⟨l, hl, hlf⟩
    refine ⟨l, (distinctSorted_mem labels l).2 hl, ?_⟩
    rw [knownLabel] at hlf
    exact Option.not_isSome_iff_eq_none.1 (by simp [hlf])
  have hflt : 0 + ((distinctSorted labels).filter
      (fun x => (mlookup x (labelMapping isXbb)).isSome)).length ≤ 4 := by
    have hnd : ((distinctSorted labels).filter
        (fun x => (mlookup x (labelMapping isXbb)).isSome)).Nodup :=
      (distinctSorted_nodup labels).filter _
    have hsub : (distinctSorted labels).filter
        (fun x => (mlookup x (labelMapping isXbb)).isSome)
          ⊆ (labelMapping isXbb).map Prod.fst := by
      intro x hx
      exact known_mem_keys _ (by simpa using List.of_mem_filter hx)
    have := nodup_subset_length hnd hsub
    rw [mapping_keys_length isXbb] at this
    omega
  rcases scoreLoop_unknown G (labelMapping isXbb) labels (distinctSorted labels) 0 0
      (List.replicate labels.length (List.replicate nclass (0 : ℚ))) [] hex hflt
    with ⟨u, hu, hunone, herr⟩
  refine ⟨u, ?_, (distinctSorted_mem labels u).1 hu, ?_⟩
  · rw [getMockScoresT_eq, herr]
  · rw [knownLabel, hunone]
    rfl

/-- More than 4 distinct observed label values force an unmapped one: the
active class-parameter mapping has exactly 4 keys, and the distinct observed
values are pairwise different. -/
theorem distinct_unknown_of_gt4 (isXbb : Bool) (labels : List ℤ)
    (h4 : 4 < (distinctSorted labels).length) :
    ∃ l ∈ labels, knownLabel isXbb l = false := by
  by_contra hc
  push_neg at hc
  have hknown : ∀ l ∈ labels, knownLabel isXbb l = true := by
    intro l hl
    have hne := hc l hl
    cases hkl : knownLabel isXbb l
    · exact absurd hkl hne
    · rfl
  have := distinct_length_le isXbb labels hknown
  omega

/-- C6 (amended): in any accepted call, the dispersion scale passed to
`rng.normal` for the i-th distinct observed label (ascending order) is
`scales[i]` by plain, non-cycling indexing, and at most 4 distinct labels ever
reach the draw; a call observing more than 4 distinct label values never
succeeds — it always fails with the unknown-label error on some unmapped label
(the 4-entry mapping lookup is evaluated before the scale index, so the scale
list is never over-indexed). -/
theorem claim_C6_scale_indexing (e : ℚ → ℚ) (G : RngFun) (isXbb : Bool) (labels : List ℤ) :
    (∀ arr tr, getMockScoresT e G isXbb labels = .ok (arr, tr) →
        tr.map Prod.fst = distinctSorted labels
        ∧ tr.length ≤ 4
        ∧ tr.map Prod.snd = (List.range tr.length).map (fun k => scalesList.getD k 0))
    ∧ (4 < (distinctSorted labels).length →
        ∃ l', getMockScoresT e G isXbb labels = .error (.unknownLabel l')
          ∧ l' ∈ labels ∧ knownLabel isXbb l' = false) := by
  constructor
  · rcases hloop : scoreLoop G (labelMapping isXbb) labels (distinctSorted labels) 0 0
        (List.replicate labels.length (List.replicate nclass (0 : ℚ))) []
      with errv | ⟨m', tr0⟩
    · intro arr tr h
      rw [getMockScoresT_eq, hloop] at h
      exact absurd h (by simp)
    · have hinv := scoreLoop_ok_inv G (labelMapping isXbb) labels (distinctSorted labels) 0 0
          (List.replicate labels.length (List.replicate nclass (0 : ℚ))) [] m' tr0 hloop
      have htr0 : tr0 = ((distinctSorted labels).enumFrom 0).map
          (fun p => (p.2, scalesList.getD p.1 0)) := by
        have h := hinv.2.2.1
        simpa using h
      have hlen0 : tr0.length = (distinctSorted labels).length := by
        rw [htr0, List.length_map, List.enumFrom_length]
      have hble : (distinctSorted labels).length ≤ 4 := by
        rcases hinv.2.2.2 with hb | hb
        · omega
        · rw [hb]
          simp
      intro arr tr h
      rw [getMockScoresT_eq, hloop] at h
      have htreq : tr = tr0 := ((Prod.ext_iff.1 (Except.ok.inj h)).2).symm
      subst htreq
      refine ⟨?_, by omega, ?_⟩
      · rw [htr0, List.map_map]
        exact List.enumFrom_map_snd 0 (distinctSorted labels)
      · rw [htr0, List.map_map]
        have hfst : ((distinctSorted labels).enumFrom 0).map
            (fun p => scalesList.getD p.1 0)
            = (((distinctSorted labels).enumFrom 0).map Prod.fst).map
                (fun k => scalesList.getD k 0) := by
          rw [List.map_map]
          rfl
        rw [show ((fun p : ℤ × ℚ => p.2) ∘ fun p : ℕ × ℤ => (p.2, scalesList.getD p.1 0))
            = fun p : ℕ × ℤ => scalesList.getD p.1 0 from rfl, hfst,
          List.enumFrom_map_fst, ← List.range_eq_range', List.length_map,
          List.enumFrom_length]
  · intro h4
    exact scoresT_unknown e G isXbb labels (distinct_unknown_of_gt4 isXbb labels h4)

theorem claim_C6_witness :
    (∃ arr tr, getMockScoresT eW GW false [0, 4] = .ok (arr, tr)
      ∧ tr.map Prod.fst = distinctSorted [0, 4]
      ∧ tr.length ≤ 4
      ∧ tr.map Prod.snd = (List.range tr.length).map (fun k => scalesList.getD k 0))
    ∧ (4 < (distinctSorted [0, 4, 5, 15, 1]).length
      ∧ ∃ l', getMockScoresT eW GW false [0, 4, 5, 15, 1] = .error (.unknownLabel l')
          ∧ l' ∈ [(0 : ℤ), 4, 5, 15, 1] ∧ knownLabel false l' = false) := by
  constructor
  · rcases getMockScoresT_ok eW GW false [0, 4] (by decide) with ⟨arr, tr, h, _⟩
    have hc := (claim_C6_scale_indexing eW GW false [0, 4]).1 arr tr h
    exact ⟨arr, tr, h, hc.1, hc.2.1, hc.2.2⟩
  · exact ⟨by decide,
      (claim_C6_scale_indexing eW GW false [0, 4, 5, 15, 1]).2 (by decide)⟩

theorem claim_C6_counterexample :
    getMockScoresT eW GW false [0, 4, 5, 15, 1] = .error (.unknownLabel 1) := by
  rfl

/-- C7 (amended): a non-empty track-dataset name produces a track dataset under
that name after the jet dataset, and only the empty string (a falsy name)
disables track generation; leaving the parameter absent uses the default name
`"tracks"`, so a track dataset named `"tracks"` is still written. -/
theorem claim_C7_track_dataset_naming :
    ∀ (e : ℚ → ℚ) (G : RngFun) (n : ℕ) (name : String) (t : ℕ),
      ((getMockFile e G n name t).map (fun f => f.datasets.map Prod.fst)
          = .ok (if name = "" then ["jets"] else ["jets", name]))
      ∧ ((getMockFileDefaults e G).map (fun f => f.datasets.map Prod.fst)
          = .ok ["jets", "tracks"]) := by
  intro e G n name t
  refine ⟨getMockFile_names e G n name t, ?_⟩
  have h := getMockFile_names e G 1000 "tracks" 40
  simpa [getMockFileDefaults] using h

theorem claim_C7_counterexample :
    (getMockFileDefaults eW GW).map (fun f => f.datasets.map Prod.fst)
      = .ok ["jets", "tracks"] := by
  have h := getMockFile_names eW GW 1000 "tracks" 40
  simpa [getMockFileDefaults] using h

/-! ### The schema merger error paths -/

theorem findMismatch_some {s : List ℕ} :
    ∀ {l : List SArr}, (∃ b ∈ l, b.shape ≠ s) →
      ∃ b0, findMismatch s l = some b0 ∧ b0.shape ≠ s ∧ b0 ∈ l := by
  intro l
  induction l with
  | nil => rintro ⟨b, hb, _⟩; simp at hb
  | cons c cs ih =>
    rintro ⟨b, hb, hbs⟩
    by_cases hcs : c.shape = s
    · have hbcs : b ∈ cs := by
        rcases List.mem_cons.1 hb with rfl | h
        · exact absurd hcs hbs
        · exact h
      rcases ih ⟨b, hbcs, hbs⟩ with ⟨b0, h1, h2, h3⟩
      exact ⟨b0, by rw [findMismatch, if_pos hcs]; exact h1, h2, List.mem_cons_of_mem c h3⟩
    · exact ⟨c, by rw [findMismatch, if_neg hcs], hcs, List.mem_cons_self c cs⟩

theorem findMismatch_none {s : List ℕ} :
    ∀ {l : List SArr}, (∀ b ∈ l, b.shape = s) → findMismatch s l = none := by
  intro l
  induction l with
  | nil => intro _; rfl
  | cons c cs ih =>
    intro h
    rw [findMismatch, if_pos (h c (List.mem_cons_self c cs))]
    exact ih (fun b hb => h b (List.mem_cons_of_mem c hb))

/-- C8: the schema merger fails with a shape-mismatch error naming two
conflicting shapes whenever two inputs disagree in shape, and (shapes agreeing)
with a schema-conflict error naming a duplicated field name whenever the
concatenated schemas repeat a name; in both cases it is an error, so no merged
array is produced. -/
theorem claim_C8_merger_errors :
    (∀ (arrs : List SArr) (x y : SArr), x ∈ arrs → y ∈ arrs → x.shape ≠ y.shape →
        ∃ s1 s2, joinStructuredArrays arrs = .error (.shapeMismatch s1 s2)
          ∧ s1 ≠ s2 ∧ (∃ u ∈ arrs, u.shape = s1) ∧ (∃ v ∈ arrs, v.shape = s2))
    ∧ (∀ arrs : List SArr, arrs ≠ [] →
        (∀ x ∈ arrs, ∀ y ∈ arrs, x.shape = y.shape) →
        ¬ ((arrs.map (fun x => x.fields.map Prod.fst)).flatten).Nodup →
        ∃ f, joinStructuredArrays arrs = .error (.schemaConflict f)
          ∧ 2 ≤ ((arrs.map (fun x => x.fields.map Prod.fst)).flatten).count f) := by
  constructor
  · intro arrs x y hx hy hxy
    rcases arrs with _ | ⟨a, rest⟩
    · simp at hx
    · have hrest : ∃ b ∈ rest, b.shape ≠ a.shape := by
        rcases List.mem_cons.1 hx with rfl | hxr
        · rcases List.mem_cons.1 hy with rfl | hyr
          · exact absurd rfl hxy
          · exact ⟨y, hyr, fun hc => hxy hc.symm⟩
        · rcases List.mem_cons.1 hy with rfl | hyr
          · exact ⟨x, hxr, fun hc => hxy hc⟩
          · by_cases hxa : x.shape = a.shape
            · refine ⟨y, hyr, fun hc => hxy ?_⟩
              rw [hxa, hc]
            · exact ⟨x, hxr, hxa⟩
      rcases findMismatch_some hrest with ⟨b0, hfm, hbs, hbmem⟩
      refine ⟨a.shape, b0.shape, ?_, fun hc => hbs hc.symm,
        ⟨a, List.mem_cons_self a rest, rfl⟩, ⟨b0, List.mem_cons_of_mem a hbmem, rfl⟩⟩
      rw [joinStructuredArrays, hfm]
  · intro arrs hne hsh hdup
    rcases arrs with _ | ⟨a, rest⟩
    · exact absurd rfl hne
    · have hfm : findMismatch a.shape rest = none :=
        findMismatch_none (fun b hb =>
          hsh b (List.mem_cons_of_mem a hb) a (List.mem_cons_self a rest))
      rcases firstDup_isSome hdup with ⟨f, hfd, hcnt⟩
      refine ⟨f, ?_, hcnt⟩
      rw [joinStructuredArrays, hfm, hfd]

/-- Witness input arrays for the merger error cases: shapes `(10,)` and
`(20,)`, and a shared field name `"a"`. -/
def arrA : SArr := ⟨[("a", .f4)], [10], List.replicate 10 [("a", Val.q 0)]⟩

def arrB : SArr := ⟨[("b", .f4)], [20], List.replicate 20 [("b", Val.q 0)]⟩

def arrC : SArr := ⟨[("a", .f4)], [10], List.replicate 10 [("a", Val.q 1)]⟩

theorem claim_C8_witness :
    (∃ s1 s2, joinStructuredArrays [arrA, arrB] = .error (.shapeMismatch s1 s2)
      ∧ s1 ≠ s2 ∧ (∃ u ∈ [arrA, arrB], u.shape = s1) ∧ (∃ v ∈ [arrA, arrB], v.shape = s2))
    ∧ (∃ f, joinStructuredArrays [arrA, arrC] = .error (.schemaConflict f)
      ∧ 2 ≤ (([arrA, arrC].map (fun x => x.fields.map Prod.fst)).flatten).count f) :=
  ⟨claim_C8_merger_errors.1 [arrA, arrB] arrA arrB (List.mem_cons_self _ _)
      (List.mem_cons_of_mem _ (List.mem_cons_self _ _)) (by decide),
    claim_C8_merger_errors.2 [arrA, arrC] (by simp)
      (by decide)
      (by decide)⟩

/-- C9: every jet's `eta` value is a uniform draw shifted by 1/2 and scaled by
6, hence lies in `[-3, 3)` whenever the generator draws lie in `[0, 1)`, and
the `abs_eta` column is exactly the pointwise absolute value of `eta`. -/
theorem claim_C9_eta_range (e : ℚ → ℚ) (G : RngFun) (n : ℕ)
    (hG : ∀ s i, 0 ≤ G s i ∧ G s i < 1) :
    ∃ arr, mockJets e G n = .ok arr
      ∧ (∀ v ∈ arr.col "eta", ∃ x : ℚ, v = Val.q x ∧ -3 ≤ x ∧ x < 3)
      ∧ arr.col "abs_eta" = (arr.col "eta").map valAbs := by
  rcases mockJets_master e G n with ⟨arr, h, _, _, _, hcol⟩
  have heta := hcol "eta" (by decide)
  have habs := hcol "abs_eta" (by decide)
  refine ⟨arr, h, ?_, ?_⟩
  · rw [heta]
    intro v hv
    rcases List.mem_map.1 hv with ⟨i, _, rfl⟩
    refine ⟨(G 42 (12 * i + 1) - 1/2) * 6, rfl, ?_, ?_⟩
    · rcases hG 42 (12 * i + 1) with ⟨h0, _⟩
      linarith
    · rcases hG 42 (12 * i + 1) with ⟨_, h1⟩
      linarith
  · rw [heta, habs, List.map_map]
    apply List.map_congr_left
    intro i _
    rfl

theorem claim_C9_witness :
    (∀ s i, 0 ≤ GW s i ∧ GW s i < 1)
    ∧ ∃ arr, mockJets eW GW 2 = .ok arr
        ∧ (∀ v ∈ arr.col "eta", ∃ x : ℚ, v = Val.q x ∧ -3 ≤ x ∧ x < 3)
        ∧ arr.col "abs_eta" = (arr.col "eta").map valAbs :=
  ⟨GW_mem_unit, claim_C9_eta_range eW GW 2 GW_mem_unit⟩

/-- C10: the `n_tracks` column is filled by casting a uniform `[0, 1)` draw to
a 32-bit integer, which truncates it to 0, and no later statement overwrites
it, so every produced jet has `n_tracks = 0`. -/
theorem claim_C10_n_tracks_zero (e : ℚ → ℚ) (G : RngFun) (n : ℕ)
    (hG : ∀ s i, 0 ≤ G s i ∧ G s i < 1) :
    ∃ arr, mockJets e G n = .ok arr
      ∧ arr.col "n_tracks" = List.replicate n (Val.z 0) := by
  rcases mockJets_master e G n with ⟨arr, h, _, _, _, hcol⟩
  have hnt := hcol "n_tracks" (by decide)
  refine ⟨arr, h, ?_⟩
  rw [hnt, range_map_const]
  apply List.map_congr_left
  intro i _
  show Val.z (truncQ (G 42 (12 * i + 6))) = Val.z 0
  rcases hG 42 (12 * i + 6) with ⟨h0, h1⟩
  rw [truncQ_zero h0 h1]

theorem claim_C10_witness :
    (∀ s i, 0 ≤ GW s i ∧ GW s i < 1)
    ∧ ∃ arr, mockJets eW GW 1 = .ok arr
        ∧ arr.col "n_tracks" = List.replicate 1 (Val.z 0) :=
  ⟨GW_mem_unit, claim_C10_n_tracks_zero eW GW 1 GW_mem_unit⟩

end FtagMock
